import Mathlib

/-!
Shallow embedding of `src/scripts/update.py` (misak10/mmrl-update).

The script is a single-pass batch job: for each configured repository it
looks up the latest GitHub release, optionally repacks the release zip with
stored (uncompressed) entries, and writes an `update.json` manifest and a
`changelog.md` into `src/<repo>/`.

Modelling conventions:
  * External behaviour (HTTP responses, downloaded zip archives, success of
    file writes) is an explicit `Env` parameter.
  * Side effects are recorded as an explicit `Effect` list, in program order.
  * JSON values read from configuration / API responses are modelled at the
    precision the script distinguishes: a field read with `dict.get` that can
    be absent or `null` is an `Option (Option _)` (`none` = key absent,
    `some none` = key present with JSON `null`).
  * Python string operations (`rstrip`, `split`, `endswith`, `in`, `lower`)
    are modelled structurally on character lists; `str.lower` is modelled on
    the ASCII fragment (`Char.toLower`), and `str.isdigit` on the ASCII
    digits (`Char.isDigit`).
-/

namespace UpdatePy

/-! ### Zip archives (the slice of `zipfile` the script uses) -/

/-- Compression mode recorded in a zip entry. `stored` is `zipfile.ZIP_STORED`. -/
inductive Compress where
  | stored
  | deflated
  | other
deriving DecidableEq

/-- One zip entry: a file name, its byte content (modelled as a string), and
its compression mode. An archive is a `List ZEntry` in central-directory order
(`ZipFile.infolist()` order). -/
structure ZEntry where
  name : String
  content : String
  compress : Compress
deriving DecidableEq

/-- Python's `ZipFile.read(name)`: the name-to-entry table (`NameToInfo`) is
built by assigning every entry in order, so a lookup by name returns the
content of the LAST entry bearing that name. -/
def readByName (z : List ZEntry) (n : String) : Option String :=
  match (z.filter (fun e => e.name = n)).getLast? with
  | some e => some e.content
  | none => none

/-- Lines 27-35 of `update.py`: for each `item` of `zip_ref.infolist()`, read
`zip_ref.read(item.filename)`, force `compress_type = ZIP_STORED` and write the
result; an entry whose read raises is skipped (`except ... continue`), which in
this model corresponds to `readByName` returning `none`. -/
def repackEntries (z : List ZEntry) : List ZEntry :=
  z.filterMap (fun item =>
    match readByName z item.name with
    | some c => some { name := item.name, content := c, compress := Compress.stored }
    | none => none)

/-- Line 41 of `update.py`: whether `'module.prop'` occurs in the repacked
archive's name list. -/
def hasModuleProp (z : List ZEntry) : Bool :=
  z.any (fun e => e.name = "module.prop")

/-! ### Python string primitives used by the script -/

/-- Python `str.rstrip('/')` on the character list: drop all trailing `'/'`. -/
def pyRstripSlash (l : List Char) : List Char :=
  (l.reverse.dropWhile (fun c => c = '/')).reverse

/-- Python `str.split(sep)` for a one-character separator: splits on every
occurrence, keeping empty pieces; the empty string yields `[[]]`. -/
def splitOnChar : List Char → Char → List (List Char)
  | [], _ => [[]]
  | c :: cs, sep =>
    let r := splitOnChar cs sep
    if c = sep then [] :: r
    else
      match r with
      | h :: t => (c :: h) :: t
      | [] => [[c]]

/-- Python `str.endswith(suf)`: suffix test on character lists. -/
def pyEndsWith (l suf : List Char) : Bool :=
  decide (suf <:+ l)

/-- Python `str.lower()` on the ASCII fragment: character-wise lowercasing. -/
def lowerData (s : String) : List Char :=
  s.data.map Char.toLower

/-- Python `kw in s` (substring test): `kw` occurs contiguously in `s`. -/
def pySubstr (kw s : List Char) : Bool :=
  decide (kw <:+: s)

/-- Line 101 / line 139 of `update.py`: `url.split("/")[-1]` (note: the url is
NOT `rstrip`-ped here, unlike line 61). -/
def lastPart (s : String) : String :=
  String.mk ((splitOnChar s.data '/').getLastD [])

/-! ### Version code (lines 85-89) -/

/-- Digit characters of a tag, in order: `filter(str.isdigit, tag_name)`. -/
def pyDigits (t : String) : List Char :=
  t.data.filter Char.isDigit

/-- Decimal value of a digit string, as `int(...)` computes it. -/
def natOfDigits (ds : List Char) : Nat :=
  ds.foldl (fun a c => 10 * a + (c.toNat - 48)) 0

/-- Lines 86-89 of `update.py`:
`version_code = int(''.join(filter(str.isdigit, tag_name)) or "1")`, with the
surrounding `except` giving `1` when `tag_name` is `None` (the `filter` call
raises `TypeError` then). -/
def version_code (tag : Option String) : Nat :=
  match tag with
  | none => 1
  | some t => if (pyDigits t).isEmpty then 1 else natOfDigits (pyDigits t)

/-- Line 85: `release_data.get("tag_name", "v1.0")`. The outer `Option` is key
presence, the inner one distinguishes JSON `null` from a string. -/
def effectiveTag (tf : Option (Option String)) : Option String :=
  match tf with
  | none => some "v1.0"
  | some v => v

/-! ### Data model -/

/-- One element of a release's `assets` list, as the script reads it. -/
structure Asset where
  name : String
  browser_download_url : String
deriving DecidableEq

/-- The slice of the GitHub release JSON the script uses. `tag_name` keeps the
absent / null / string distinction; `body` is `none` when absent (the script
then writes the literal `"none"`). -/
structure ReleaseData where
  tag_name : Option (Option String)
  assets : List Asset
  body : Option String
deriving DecidableEq

/-- The `update_info` dict written to `update.json` (lines 95-100, 110).
`version` is an `Option` because the script stores `tag_name` verbatim, which
is `None` when the release JSON carries `"tag_name": null`. -/
structure Manifest where
  version : Option String
  versionCode : Nat
  zipUrl : String
  changelog : String
deriving DecidableEq

/-- Content of a file write: changelog text, the manifest as JSON, or a zip. -/
inductive FileContent where
  | text (s : String)
  | json (m : Manifest)
  | zip (es : List ZEntry)
deriving DecidableEq

/-- Mode of `open(path, mode)`: `w` truncates/overwrites, `a` appends. The
script only ever uses `w`. -/
inductive Mode where
  | w
  | a
deriving DecidableEq

/-- Observable side effects, in program order. `ok` on a write records whether
the surrounding environment let the write succeed. -/
inductive Effect where
  | httpGet (url : String)
  | mkdir (path : String)
  | fwrite (path : String) (content : FileContent) (mode : Mode) (ok : Bool)
deriving DecidableEq

/-- Value of a configuration field, at the precision the script's guards
distinguish: absent key, JSON `null`, a string, or some non-string value. -/
inductive ConfigVal where
  | missing
  | nullv
  | str (s : String)
  | nonstr
deriving DecidableEq

/-- One entry of `config.json`'s `repositories` list. `keyword` is the
effective keyword: `repo_info.get("keyword", "")` with `null` behaving exactly
like `""` in the `if keyword:` test, so both are modelled as `""`. `repack` is
the truthiness of `repo_info.get("repack", False)`. -/
structure RepoInfo where
  url : ConfigVal
  keyword : String
  repack : Bool

/-- The external world: GitHub API responses by URL (`none` = non-200 or
request failure), downloadable zip archives by URL (`none` = download or
archive-open failure), and whether a given file write succeeds. -/
structure Env where
  releases : String → Option ReleaseData
  download : String → Option (List ZEntry)
  changelogWriteOk : String → Bool
  updateWriteOk : String → Bool

/-! ### URL handling (lines 54-67) -/

/-- Lines 57-59: `if not repo_url or not isinstance(repo_url, str)`. Only a
non-empty string passes the guard. -/
def urlString (v : ConfigVal) : Option String :=
  match v with
  | ConfigVal.str s => if s = "" then none else some s
  | _ => none

/-- Line 61: `_, _, _, username, repo = repo_url.rstrip('/').split('/')`; the
tuple unpacking succeeds exactly when the split has five parts. -/
def parseRepo (url : String) : Option (String × String) :=
  match splitOnChar (pyRstripSlash url.data) '/' with
  | [_, _, _, username, repo] => some (String.mk username, String.mk repo)
  | _ => none

/-- Line 67: the GitHub latest-release API URL. -/
def apiUrl (username repo : String) : String :=
  "https://api.github.com/repos/" ++ username ++ "/" ++ repo ++ "/releases/latest"

/-- Base of the published raw-file URLs (lines 48 and 110). -/
def rawBase : String :=
  "https://raw.githubusercontent.com/misak10/mmrl-update/main/src/"

/-! ### Asset selection (lines 74-84) -/

/-- Lines 75-81: with a truthy keyword, the first asset whose name ends in
`".zip"` and whose lowercased name contains the keyword; otherwise the first
asset whose name ends in `".zip"`. -/
def selectZip (keyword : String) (assets : List Asset) : Option String :=
  if keyword = "" then
    (assets.find? (fun a => pyEndsWith a.name.data ".zip".data)).map Asset.browser_download_url
  else
    (assets.find? (fun a =>
      pyEndsWith a.name.data ".zip".data && pySubstr keyword.data (lowerData a.name))).map
      Asset.browser_download_url

/-! ### repack_module (lines 14-51) -/

/-- Lines 14-51 of `update.py`: download the release zip, rewrite every entry
with `ZIP_STORED` into `src/<repo_name>/module.zip`, and return the raw-file
URL of the repacked zip. Any failure (download, archive open) yields `None`.
The `module.prop` presence check on lines 41-47 only logs; it does not affect
the result. -/
def repack_module (env : Env) (zip_url : String) (repo_name : String) :
    Option String × List Effect :=
  match env.download zip_url with
  | none => (none, [Effect.httpGet zip_url])
  | some z =>
    (some (rawBase ++ repo_name ++ "/module.zip"),
     [Effect.httpGet zip_url,
      Effect.mkdir ("src/" ++ repo_name),
      Effect.fwrite ("src/" ++ repo_name ++ "/module.zip")
        (FileContent.zip (repackEntries z)) Mode.w true])

/-! ### get_latest_release (lines 53-114) -/

/-- Lines 74-111, after the release JSON has been fetched: pick the zip asset,
derive tag and version code, optionally repack, write the changelog, and build
`update_info`. Returns the result together with the effects performed after
the API request. -/
def afterRelease (env : Env) (ri : RepoInfo) (repo_url repo : String)
    (rd : ReleaseData) : Option Manifest × List Effect :=
  match selectZip ri.keyword rd.assets with
  | none => (none, [])
  | some zip0 =>
    let tag := effectiveTag rd.tag_name
    let vcode := version_code tag
    match (if ri.repack then repack_module env zip0 repo else (some zip0, [])) with
    | (none, reffs) => (none, reffs)
    | (some zurl, reffs) =>
      let repo_name := lastPart repo_url
      let clpath := "src/" ++ repo_name ++ "/changelog.md"
      (some { version := tag, versionCode := vcode, zipUrl := zurl,
              changelog := rawBase ++ repo_name ++ "/changelog.md" },
       reffs ++
        [Effect.mkdir ("src/" ++ repo_name),
         Effect.fwrite clpath (FileContent.text (rd.body.getD "none")) Mode.w
           (env.changelogWriteOk clpath)])

/-- Lines 65-73: build the API URL and fetch the release JSON; a non-200 or
failed request yields `None`. -/
def afterParse (env : Env) (ri : RepoInfo) (repo_url username repo : String) :
    Option Manifest × List Effect :=
  let api := apiUrl username repo
  match env.releases api with
  | none => (none, [Effect.httpGet api])
  | some rd =>
    match afterRelease env ri repo_url repo rd with
    | (res, effs) => (res, Effect.httpGet api :: effs)

/-- Lines 53-114 of `update.py`: `get_latest_release(repo_info)`, returning
the `update_info` dict (or `None`) together with the effects performed. -/
def get_latest_release (env : Env) (ri : RepoInfo) : Option Manifest × List Effect :=
  match urlString ri.url with
  | none => (none, [])
  | some repo_url =>
    match parseRepo repo_url with
    | none => (none, [])
    | some (username, repo) => afterParse env ri repo_url username repo

/-! ### main (lines 125-150) -/

/-- Line 139: `repo_info.get("url", "").split("/")[-1]` — the `.get` default
covers an absent key, but a `null` or non-string value reaches `.split` and
raises an uncaught `AttributeError` (`none` here), aborting the whole run. -/
def mainGetName (v : ConfigVal) : Option String :=
  match v with
  | ConfigVal.missing => some ""
  | ConfigVal.str s => some s
  | ConfigVal.nullv => none
  | ConfigVal.nonstr => none

/-- Lines 139-150: the body of the per-repository loop. `none` models the
uncaught exception on line 139; otherwise the entry's effects: the lookup's
effects, plus (on success) the `update.json` write, whose own failure is
caught on lines 147-148. -/
def processEntry (env : Env) (ri : RepoInfo) : Option (List Effect) :=
  match mainGetName ri.url with
  | none => none
  | some u =>
    let repo_name := lastPart u
    match get_latest_release env ri with
    | (none, effs) => some effs
    | (some m, effs) =>
      let upath := "src/" ++ repo_name ++ "/update.json"
      some (effs ++
        [Effect.mkdir ("src/" ++ repo_name),
         Effect.fwrite upath (FileContent.json m) Mode.w (env.updateWriteOk upath)])

/-- Lines 138-150: the `for repo_info in config["repositories"]` loop. The
boolean records whether the loop ran to completion; an uncaught exception
(`processEntry = none`) aborts the run, discarding the remaining entries. -/
def mainRun (env : Env) : List RepoInfo → List Effect × Bool
  | [] => ([], true)
  | ri :: rest =>
    match processEntry env ri with
    | none => ([], false)
    | some effs =>
      match mainRun env rest with
      | (r, ok) => (effs ++ r, ok)

/-! ### File-system semantics of the effects -/

/-- File contents by path. -/
def FS : Type := String → Option FileContent

/-- Applying one effect to the file system: a successful mode-`w` write
replaces the file's content outright; a successful mode-`a` write appends;
failed writes and non-write effects leave files unchanged (`mkdir` only
affects directories). -/
def applyEffect (fs : FS) : Effect → FS
  | Effect.fwrite p c Mode.w true => fun q => if q = p then some c else fs q
  | Effect.fwrite p c Mode.a true => fun q =>
      if q = p then
        some (match fs p, c with
              | some (FileContent.text a), FileContent.text b => FileContent.text (a ++ b)
              | _, _ => c)
      else fs q
  | _ => fs

/-- Whether an effect is a write of JSON content (only `update.json` is). -/
def isJsonWrite : Effect → Bool
  | Effect.fwrite _ (FileContent.json _) _ _ => true
  | _ => false

/-- Whether an effect is a write of text content (only `changelog.md` is). -/
def isTextWrite : Effect → Bool
  | Effect.fwrite _ (FileContent.text _) _ _ => true
  | _ => false

/-! ### Specification-side definitions (for refinement claims) -/

/-- Specification-side reading of the `versionCode` derivation: the decimal
number formed by concatenating, in order, every digit character occurring in
the tag name, `1` when the tag name has no digit characters, with an absent
`tag_name` treated as the tag `"v1.0"`. (A `null` tag name is outside this
reading; the code then raises inside the `try` and falls back to `1`.) -/
def specVersionCode (tf : Option (Option String)) : Nat :=
  let t := match tf with
           | none => "v1.0"
           | some (some t) => t
           | some none => ""
  let ds := t.data.filter Char.isDigit
  if ds.isEmpty then 1
  else Nat.ofDigits 10 ((ds.map (fun c => c.toNat - 48)).reverse)

/-! ### Concrete inputs used by witnesses and counterexamples -/

/-- Archive with a `module.prop`, as a well-formed module zip has. -/
def zOk : List ZEntry :=
  [⟨"module.prop", "id=x", Compress.deflated⟩,
   ⟨"system/bin/f", "bin", Compress.deflated⟩]

/-- Release with a string tag, one zip asset and a body. -/
def rdOk : ReleaseData :=
  { tag_name := some (some "v3.14"),
    assets := [⟨"mod.zip", "http://x/mod.zip"⟩],
    body := some "notes" }

/-- Environment where every request succeeds. -/
def envOk : Env :=
  { releases := fun _ => some rdOk,
    download := fun _ => some zOk,
    changelogWriteOk := fun _ => true,
    updateWriteOk := fun _ => true }

/-- Entry with a well-formed url, no keyword, no repack. -/
def riPlain : RepoInfo :=
  { url := ConfigVal.str "https://github.com/u/r", keyword := "", repack := false }

/-- Entry with a well-formed url and repack enabled. -/
def riRepack : RepoInfo :=
  { url := ConfigVal.str "https://github.com/u/r", keyword := "", repack := true }

/-- Entry whose url is a non-string configuration value. -/
def riBadUrl : RepoInfo :=
  { url := ConfigVal.nonstr, keyword := "", repack := false }

/-- Manifest produced for `riPlain` under `envOk`. -/
def mPlain : Manifest :=
  { version := some "v3.14", versionCode := 314, zipUrl := "http://x/mod.zip",
    changelog := rawBase ++ "r/changelog.md" }

/-- Manifest produced for `riRepack` under `envOk`. -/
def mRepack : Manifest :=
  { version := some "v3.14", versionCode := 314, zipUrl := rawBase ++ "r/module.zip",
    changelog := rawBase ++ "r/changelog.md" }

/-- Release whose JSON carries `"tag_name": null`. -/
def rdNullTag : ReleaseData :=
  { tag_name := some none,
    assets := [⟨"mod.zip", "http://x/mod.zip"⟩],
    body := some "notes" }

/-- Environment serving `rdNullTag`. -/
def envNullTag : Env :=
  { envOk with releases := fun _ => some rdNullTag }

/-- Archive with two entries of the same name and different contents. -/
def zDup : List ZEntry :=
  [⟨"a", "1", Compress.deflated⟩, ⟨"a", "2", Compress.deflated⟩]

/-- Environment whose downloads all serve `zDup`. -/
def envDup : Env :=
  { envOk with download := fun _ => some zDup }

/-- Archive without a `module.prop` entry. -/
def zNoProp : List ZEntry :=
  [⟨"a", "x", Compress.stored⟩]

/-- Environment whose downloads all serve `zNoProp`. -/
def envNoProp : Env :=
  { envOk with download := fun _ => some zNoProp }

/-- Two entries: one whose url has the wrong shape (its lookup fails) followed
by a well-formed one. -/
def risMixed : List RepoInfo :=
  [{ url := ConfigVal.str "bad", keyword := "", repack := false }, riPlain]

/-! ### Helper lemmas: characters and digits -/

theorem toLower_toNat (c : Char) :
    (Char.toLower c).toNat = if 65 ≤ c.toNat ∧ c.toNat ≤ 90 then c.toNat + 32 else c.toNat := by
  simp only [Char.toLower]
  by_cases h : c.toNat ≥ 65 ∧ c.toNat ≤ 90
  · rw [if_pos h, if_pos ⟨h.1, h.2⟩]
    have hv : (c.toNat + 32).isValidChar := by
      left
      have := h.2
      simp only [Char.toNat] at this ⊢
      omega
    simp only [Char.ofNat]
    rw [dif_pos hv]
    rfl
  · rw [if_neg h, if_neg (by tauto)]

theorem toLower_not_upper (c : Char) :
    ¬(65 ≤ (Char.toLower c).toNat ∧ (Char.toLower c).toNat ≤ 90) := by
  rw [toLower_toNat]
  by_cases h : 65 ≤ c.toNat ∧ c.toNat ≤ 90
  · rw [if_pos h]
    omega
  · rw [if_neg h]
    omega

theorem foldl_digits (l : List Char) (a : Nat) :
    l.foldl (fun x c => 10 * x + (c.toNat - 48)) a
      = Nat.ofDigits 10 ((l.map fun c => c.toNat - 48).reverse) + a * 10 ^ l.length := by
  induction l generalizing a with
  | nil => simp [Nat.ofDigits]
  | cons c t ih =>
    simp only [List.foldl_cons, List.map_cons, List.reverse_cons, List.length_cons]
    rw [ih, Nat.ofDigits_append]
    simp [Nat.ofDigits, List.length_reverse, List.length_map, pow_succ]
    ring

theorem natOfDigits_ofDigits (ds : List Char) :
    natOfDigits ds = Nat.ofDigits 10 ((ds.map fun c => c.toNat - 48).reverse) := by
  have := foldl_digits ds 0
  simpa [natOfDigits] using this

/-- The code's version-code computation agrees with the specification-side
reading on every tag field that is not JSON `null`. -/
theorem version_code_eq_spec (tf : Option (Option String)) (h : tf ≠ some none) :
    version_code (effectiveTag tf) = specVersionCode tf := by
  match tf with
  | none =>
    simp only [effectiveTag, version_code, specVersionCode, pyDigits]
    rw [natOfDigits_ofDigits]
  | some (some t) =>
    simp only [effectiveTag, version_code, specVersionCode, pyDigits]
    rw [natOfDigits_ofDigits]
  | some none => exact absurd rfl h

/-! ### Helper lemmas: lists -/

theorem find?_congrP {α : Type} (l : List α) (p q : α → Bool) (h : ∀ a, p a = q a) :
    l.find? p = l.find? q := by
  induction l with
  | nil => rfl
  | cons a t ih =>
    rw [List.find?_cons, List.find?_cons, h a, ih]

theorem filterMap_eq_map_of {α β : Type} (l : List α) (f : α → Option β) (g : α → β)
    (h : ∀ a ∈ l, f a = some (g a)) : l.filterMap f = l.map g := by
  induction l with
  | nil => rfl
  | cons a t ih =>
    rw [List.filterMap_cons, h a (List.mem_cons_self a t), List.map_cons,
      ih (fun x hx => h x (List.mem_cons_of_mem a hx))]

/-! ### Helper lemmas: the repack loop -/

theorem readByName_isSome (z : List ZEntry) (e : ZEntry) (h : e ∈ z) :
    ∃ c, readByName z e.name = some c := by
  have hne : z.filter (fun x => x.name = e.name) ≠ [] := by
    intro hnil
    rw [List.filter_eq_nil_iff] at hnil
    exact hnil e h (by simp)
  have hs := List.getLast?_isSome.mpr hne
  rcases hg : (z.filter (fun x => x.name = e.name)).getLast? with _ | x
  · rw [hg] at hs
    simp at hs
  · exact ⟨x.content, by rw [readByName, hg]⟩

theorem filter_name_nodup (z : List ZEntry) (e : ZEntry)
    (hn : (z.map ZEntry.name).Nodup) (h : e ∈ z) :
    z.filter (fun x => x.name = e.name) = [e] := by
  induction z with
  | nil => cases h
  | cons a t ih =>
    rw [List.map_cons, List.nodup_cons] at hn
    rcases List.mem_cons.mp h with rfl | hmem
    · have hnil : t.filter (fun x => x.name = e.name) = [] := by
        rw [List.filter_eq_nil_iff]
        intro x hx hxa
        simp only [decide_eq_true_eq] at hxa
        exact hn.1 (hxa ▸ List.mem_map_of_mem ZEntry.name hx)
      simp [List.filter_cons, hnil]
    · have hna : ¬(a.name = e.name) := by
        intro hEq
        exact hn.1 (hEq ▸ List.mem_map_of_mem ZEntry.name hmem)
      simp [List.filter_cons, hna, ih hn.2 hmem]

theorem readByName_nodup (z : List ZEntry) (e : ZEntry)
    (hn : (z.map ZEntry.name).Nodup) (h : e ∈ z) :
    readByName z e.name = some e.content := by
  rw [readByName, filter_name_nodup z e hn h]
  rfl

/-- The repack loop, written as a map: every output entry keeps its input
entry's name, stores the content `ZipFile.read` returns for that name, and is
re-encoded `ZIP_STORED`. -/
theorem repackEntries_eq_map (z : List ZEntry) :
    repackEntries z
      = z.map (fun e => ⟨e.name, (readByName z e.name).getD "", Compress.stored⟩) := by
  apply filterMap_eq_map_of
  intro e he
  obtain ⟨c, hc⟩ := readByName_isSome z e he
  rw [hc]
  rfl

theorem repackEntries_names (z : List ZEntry) :
    (repackEntries z).map ZEntry.name = z.map ZEntry.name := by
  rw [repackEntries_eq_map, List.map_map]
  rfl

theorem repackEntries_stored (z : List ZEntry) :
    ∀ e ∈ repackEntries z, e.compress = Compress.stored := by
  rw [repackEntries_eq_map]
  intro e he
  rcases List.mem_map.mp he with ⟨x, _, rfl⟩
  rfl

theorem repackEntries_of_nodup (z : List ZEntry) (hn : (z.map ZEntry.name).Nodup) :
    repackEntries z = z.map (fun e => { e with compress := Compress.stored }) := by
  rw [repackEntries_eq_map]
  apply List.map_congr_left
  intro e he
  rw [readByName_nodup z e hn he]
  rfl

/-! ### Helper lemmas: repack_module -/

theorem repack_module_spec (env : Env) (u r : String) (z : List ZEntry)
    (h : env.download u = some z) :
    repack_module env u r
      = (some (rawBase ++ r ++ "/module.zip"),
         [Effect.httpGet u, Effect.mkdir ("src/" ++ r),
          Effect.fwrite ("src/" ++ r ++ "/module.zip")
            (FileContent.zip (repackEntries z)) Mode.w true]) := by
  rw [repack_module, h]

theorem repack_module_fst (env : Env) (u r : String) :
    (repack_module env u r).1 = none ∨
    (repack_module env u r).1 = some (rawBase ++ r ++ "/module.zip") := by
  rw [repack_module]
  cases env.download u <;> simp

theorem repack_module_effs (env : Env) (u r : String) :
    ∀ e ∈ (repack_module env u r).2,
      isJsonWrite e = false ∧ isTextWrite e = false ∧
      ∀ p c mo ok, e = Effect.fwrite p c mo ok → mo = Mode.w := by
  rw [repack_module]
  cases env.download u with
  | none =>
    intro e he
    simp only [List.mem_singleton] at he
    subst he
    exact ⟨rfl, rfl, fun p c mo ok h => by cases h⟩
  | some z =>
    intro e he
    simp only [List.mem_cons, List.mem_singleton] at he
    rcases he with rfl | rfl | rfl | h
    · exact ⟨rfl, rfl, fun p c mo ok h => by cases h⟩
    · exact ⟨rfl, rfl, fun p c mo ok h => by cases h⟩
    · exact ⟨rfl, rfl, fun p c mo ok h => by cases h; rfl⟩
    · cases h

theorem repack_module_env_congr (env : Env) (f : String → Bool) (u r : String) :
    repack_module { env with changelogWriteOk := f } u r = repack_module env u r := rfl

/-! ### Helper lemmas: get_latest_release -/

/-- Inversion: whatever a successful lookup returns is the manifest built from
the release served at the entry's API URL. -/
theorem get_some_inv (env : Env) (ri : RepoInfo) (m : Manifest)
    (hm : (get_latest_release env ri).1 = some m) :
    ∃ s u r rd zip0,
      urlString ri.url = some s ∧ parseRepo s = some (u, r) ∧
      env.releases (apiUrl u r) = some rd ∧
      selectZip ri.keyword rd.assets = some zip0 ∧
      m.version = effectiveTag rd.tag_name ∧
      m.versionCode = version_code (effectiveTag rd.tag_name) ∧
      m.changelog = rawBase ++ lastPart s ++ "/changelog.md" ∧
      (ri.repack = false → m.zipUrl = zip0) ∧
      (ri.repack = true → (repack_module env zip0 r).1 = some m.zipUrl) := by
  rw [get_latest_release] at hm
  split at hm
  · simp at hm
  next s hu =>
  split at hm
  · simp at hm
  next u r hp =>
  simp only [afterParse] at hm
  split at hm
  · simp at hm
  next rd hr =>
  simp only at hm
  simp only [afterRelease] at hm
  split at hm
  · simp at hm
  next zip0 hsz =>
  split at hm
  next reffs hif => simp at hm
  next zurl reffs hif =>
    simp only at hm
    injection hm with hm
    subst hm
    refine ⟨s, u, r, rd, zip0, hu, hp, hr, hsz, rfl, rfl, rfl, ?_, ?_⟩
    · intro hrp
      rw [hrp, if_neg (by simp)] at hif
      exact (Option.some.inj (congrArg Prod.fst hif)).symm
    · intro hrp
      rw [hrp, if_pos rfl] at hif
      exact congrArg Prod.fst hif

/-- Forward evaluation of a successful lookup without repack. -/
theorem get_eq_plain (env : Env) (ri : RepoInfo) (s u r : String) (rd : ReleaseData)
    (zip0 : String)
    (hu : urlString ri.url = some s) (hp : parseRepo s = some (u, r))
    (hr : env.releases (apiUrl u r) = some rd)
    (hsz : selectZip ri.keyword rd.assets = some zip0)
    (hrp : ri.repack = false) :
    get_latest_release env ri
      = (some { version := effectiveTag rd.tag_name,
                versionCode := version_code (effectiveTag rd.tag_name),
                zipUrl := zip0,
                changelog := rawBase ++ lastPart s ++ "/changelog.md" },
         [Effect.httpGet (apiUrl u r),
          Effect.mkdir ("src/" ++ lastPart s),
          Effect.fwrite ("src/" ++ lastPart s ++ "/changelog.md")
            (FileContent.text (rd.body.getD "none")) Mode.w
            (env.changelogWriteOk ("src/" ++ lastPart s ++ "/changelog.md"))]) := by
  simp only [get_latest_release, hu, hp, afterParse, hr, afterRelease, hsz, hrp,
    Bool.false_eq_true, if_false]
  rfl

/-- Effects of the optional-repack step keep the write discipline: no JSON
writes, no text writes, and every file write uses mode `w`. -/
theorem if_repack_effs (env : Env) (ri : RepoInfo) (zip0 repo : String) :
    ∀ e ∈ (if ri.repack then repack_module env zip0 repo else (some zip0, [])).2,
      isJsonWrite e = false ∧ isTextWrite e = false ∧
      ∀ p c mo ok, e = Effect.fwrite p c mo ok → mo = Mode.w := by
  cases hrp : ri.repack
  · simp
  · simp only [if_pos rfl]
    exact repack_module_effs env zip0 repo

/-- Effects of a lookup: no `update.json` (JSON) write ever happens inside
`get_latest_release`, and every file write it performs uses mode `w`. -/
theorem get_effs (env : Env) (ri : RepoInfo) :
    ∀ e ∈ (get_latest_release env ri).2,
      isJsonWrite e = false ∧
      ∀ p c mo ok, e = Effect.fwrite p c mo ok → mo = Mode.w := by
  rw [get_latest_release]
  split
  · intro e he
    cases he
  split
  · intro e he
    cases he
  next u r hp =>
  simp only [afterParse]
  split
  · intro e he
    simp only [List.mem_singleton] at he
    subst he
    exact ⟨rfl, fun _ _ _ _ h => by cases h⟩
  next rd hr =>
  simp only
  intro e he
  simp only [List.mem_cons] at he
  rcases he with rfl | he
  · exact ⟨rfl, fun _ _ _ _ h => by cases h⟩
  rw [afterRelease] at he
  revert he
  split
  · intro he
    cases he
  next zip0 hsz =>
  split
  next reffs hif =>
    intro he
    have hmem : e ∈ (if ri.repack then repack_module env zip0 r else (some zip0, [])).2 := by
      rw [hif]
      exact he
    obtain ⟨h1, _, h3⟩ := if_repack_effs env ri zip0 r e hmem
    exact ⟨h1, h3⟩
  next zurl reffs hif =>
    intro he
    simp only [List.mem_append, List.mem_cons, List.not_mem_nil, or_false] at he
    rcases he with he | rfl | rfl
    · have hmem : e ∈ (if ri.repack then repack_module env zip0 r else (some zip0, [])).2 := by
        rw [hif]
        exact he
      obtain ⟨h1, _, h3⟩ := if_repack_effs env ri zip0 r e hmem
      exact ⟨h1, h3⟩
    · exact ⟨rfl, fun _ _ _ _ h => by cases h⟩
    · exact ⟨rfl, fun _ _ _ _ h => by cases h; rfl⟩

/-- At most one text (changelog) write happens inside `get_latest_release`. -/
theorem get_textCount (env : Env) (ri : RepoInfo) :
    (get_latest_release env ri).2.countP isTextWrite ≤ 1 := by
  rw [get_latest_release]
  split
  · simp
  split
  · simp
  next u r hp =>
  simp only [afterParse]
  split
  · simp [isTextWrite]
  next rd hr =>
  simp only
  rw [afterRelease]
  have hrep : ∀ zip0 : String,
      ((if ri.repack then repack_module env zip0 r else (some zip0, [])).2).countP
        isTextWrite = 0 := by
    intro zip0
    rw [List.countP_eq_zero]
    intro e he
    simp [(if_repack_effs env ri zip0 r e he).2.1]
  split
  · simp [isTextWrite]
  next zip0 hsz =>
  split
  next reffs hif =>
    have := hrep zip0
    rw [hif] at this
    simp [List.countP_cons, this, isTextWrite]
  next zurl reffs hif =>
    have := hrep zip0
    rw [hif] at this
    simp [List.countP_cons, List.countP_append, this, isTextWrite]

/-- The returned manifest does not depend on whether changelog writes
succeed. -/
theorem get_fst_env_changelog (env : Env) (f : String → Bool) (ri : RepoInfo) :
    (get_latest_release { env with changelogWriteOk := f } ri).1
      = (get_latest_release env ri).1 := by
  rcases hu : urlString ri.url with _ | s <;>
    simp only [get_latest_release, hu]
  rcases hp : parseRepo s with _ | ⟨u, r⟩ <;> simp only [hp]
  simp only [afterParse]
  rcases hr : env.releases (apiUrl u r) with _ | rd <;> simp only [hr]
  simp only [afterRelease, repack_module_env_congr]
  rcases hsz : selectZip ri.keyword rd.assets with _ | zip0 <;> simp only [hsz]
  split <;> rfl

/-! ### Helper lemmas: the main loop -/

theorem processEntry_isSome (env : Env) (ri : RepoInfo)
    (h : (mainGetName ri.url).isSome = true) :
    (processEntry env ri).isSome = true := by
  rw [processEntry]
  rcases hg : mainGetName ri.url with _ | u
  · rw [hg] at h
    simp at h
  · simp only
    rcases hgl : get_latest_release env ri with ⟨mi, effs⟩
    cases mi <;> simp

theorem mainRun_eq_join (env : Env) (ris : List RepoInfo)
    (h : ∀ ri ∈ ris, (mainGetName ri.url).isSome = true) :
    mainRun env ris = ((ris.map (fun ri => (processEntry env ri).getD [])).flatten, true) := by
  induction ris with
  | nil => simp [mainRun]
  | cons a t ih =>
    have ha := processEntry_isSome env a (h a (List.mem_cons_self a t))
    rcases hp : processEntry env a with _ | effs
    · rw [hp] at ha
      simp at ha
    · rw [mainRun, hp, ih (fun ri hri => h ri (List.mem_cons_of_mem a hri))]
      simp [hp]

/-! ### The claims -/

/-- C1: for every processed repository release, the manifest's versionCode
equals the decimal number formed by concatenating, in order, every digit
character of the release's tag name, equals 1 when the tag name has no digit
characters, and a release without a tag_name is treated as tag "v1.0". -/
theorem versionCode_concatenates_tag_digits (env : Env) (ri : RepoInfo)
    (s u r : String) (rd : ReleaseData) (m : Manifest)
    (hu : urlString ri.url = some s) (hp : parseRepo s = some (u, r))
    (hr : env.releases (apiUrl u r) = some rd)
    (ht : rd.tag_name ≠ some none)
    (hm : (get_latest_release env ri).1 = some m) :
    m.versionCode = specVersionCode rd.tag_name := by
  obtain ⟨s2, u2, r2, rd2, zip0, hu2, hp2, hr2, hsz2, hv, hvc, hcl, hz1, hz2⟩ :=
    get_some_inv env ri m hm
  have hs2e : s2 = s := Option.some.inj (hu2.symm.trans hu)
  rw [hs2e] at hp2
  have h2 := Option.some.inj (hp2.symm.trans hp)
  have hu2e : u2 = u := congrArg Prod.fst h2
  have hr2e : r2 = r := congrArg Prod.snd h2
  have hrd : rd2 = rd := by
    rw [hu2e, hr2e] at hr2
    exact Option.some.inj (hr2.symm.trans hr)
  rw [hrd] at hvc
  rw [hvc]
  exact version_code_eq_spec _ ht

/-- Witness for C1 at a concrete input: tag "v3.14" gives versionCode 314. -/
theorem versionCode_concatenates_tag_digits_witness :
    mPlain.versionCode = specVersionCode rdOk.tag_name :=
  versionCode_concatenates_tag_digits envOk riPlain "https://github.com/u/r" "u" "r"
    rdOk mPlain (by decide) (by decide) rfl (by decide) (by decide)

/-- C2 counterexample: when the release JSON carries `"tag_name": null`, the
lookup still succeeds and the update.json written for the entry has a null
version field. -/
theorem manifest_null_version_cex :
    ((get_latest_release envNullTag riPlain).1.map Manifest.version) = some none ∧
    ((processEntry envNullTag riPlain).getD []).countP isJsonWrite = 1 := by
  decide

/-- C2 (amended): whenever update.json is written, versionCode is an integer
and zipUrl and changelog are strings; the version field is a non-null string
provided the release's tag_name is not JSON null (it equals tag_name, or
"v1.0" when tag_name is absent). -/
theorem manifest_fields_nonnull (env : Env) (ri : RepoInfo)
    (s u r : String) (rd : ReleaseData) (m : Manifest)
    (hu : urlString ri.url = some s) (hp : parseRepo s = some (u, r))
    (hr : env.releases (apiUrl u r) = some rd)
    (ht : rd.tag_name ≠ some none)
    (hm : (get_latest_release env ri).1 = some m) :
    m.version.isSome = true := by
  obtain ⟨s2, u2, r2, rd2, zip0, hu2, hp2, hr2, hsz2, hv, hvc, hcl, hz1, hz2⟩ :=
    get_some_inv env ri m hm
  have hs2e : s2 = s := Option.some.inj (hu2.symm.trans hu)
  rw [hs2e] at hp2
  have h2 := Option.some.inj (hp2.symm.trans hp)
  have hu2e : u2 = u := congrArg Prod.fst h2
  have hr2e : r2 = r := congrArg Prod.snd h2
  have hrd : rd2 = rd := by
    rw [hu2e, hr2e] at hr2
    exact Option.some.inj (hr2.symm.trans hr)
  rw [hrd] at hv
  rw [hv]
  cases htn : rd.tag_name with
  | none => rfl
  | some v =>
    cases v with
    | none => exact absurd htn ht
    | some t => rfl

/-- Witness for C2's amended theorem at a concrete input. -/
theorem manifest_fields_nonnull_witness : mPlain.version.isSome = true :=
  manifest_fields_nonnull envOk riPlain "https://github.com/u/r" "u" "r" rdOk mPlain
    (by decide) (by decide) rfl (by decide) (by decide)

/-- C3 (amended): when repack succeeds, the repacked archive has one entry per
input entry, in order, with the same names, every entry re-encoded ZIP_STORED;
each output entry's content is what `ZipFile.read` returns for its name (the
last input entry with that name), so contents are preserved exactly whenever
the input has no duplicate names. -/
theorem repack_archive_contents (env : Env) (u r : String) (z : List ZEntry)
    (h : env.download u = some z) :
    (repack_module env u r).1 = some (rawBase ++ r ++ "/module.zip") ∧
    (repack_module env u r).2
      = [Effect.httpGet u, Effect.mkdir ("src/" ++ r),
         Effect.fwrite ("src/" ++ r ++ "/module.zip")
           (FileContent.zip (repackEntries z)) Mode.w true] ∧
    (repackEntries z).map ZEntry.name = z.map ZEntry.name ∧
    (∀ e ∈ repackEntries z, e.compress = Compress.stored) ∧
    ((z.map ZEntry.name).Nodup →
      repackEntries z = z.map (fun e => { e with compress := Compress.stored })) := by
  refine ⟨?_, ?_, repackEntries_names z, repackEntries_stored z, repackEntries_of_nodup z⟩
  · rw [repack_module_spec env u r z h]
  · rw [repack_module_spec env u r z h]

/-- Witness for C3's amended theorem at a concrete input. -/
theorem repack_archive_contents_witness :
    (repack_module envOk "http://x/mod.zip" "r").1 = some (rawBase ++ "r" ++ "/module.zip") :=
  (repack_archive_contents envOk "http://x/mod.zip" "r" zOk rfl).1

/-- C3 counterexample: with duplicate entry names the repack succeeds but the
written archive is not an entry-by-entry copy: the first "a" entry's content
has become the last one's. -/
theorem repack_archive_contents_cex :
    (repack_module envDup "http://x/d.zip" "r").1.isSome = true ∧
    (repack_module envDup "http://x/d.zip" "r").2
      = [Effect.httpGet "http://x/d.zip", Effect.mkdir "src/r",
         Effect.fwrite "src/r/module.zip" (FileContent.zip (repackEntries zDup)) Mode.w true] ∧
    repackEntries zDup ≠ zDup.map (fun e => { e with compress := Compress.stored }) := by
  decide

/-- C4 (amended): the repack routine checks whether 'module.prop' is present
in the repacked archive but only logs a warning when it is absent: the repack
still succeeds and still returns the published raw-file URL. -/
theorem repack_succeeds_without_module_prop (env : Env) (u r : String) (z : List ZEntry)
    (h : env.download u = some z)
    (_hnp : hasModuleProp (repackEntries z) = false) :
    (repack_module env u r).1 = some (rawBase ++ r ++ "/module.zip") := by
  rw [repack_module_spec env u r z h]

/-- Witness for C4's amended theorem at a concrete input. -/
theorem repack_succeeds_without_module_prop_witness :
    (repack_module envNoProp "http://x/d.zip" "r").1 = some (rawBase ++ "r" ++ "/module.zip") :=
  repack_succeeds_without_module_prop envNoProp "http://x/d.zip" "r" zNoProp rfl (by decide)

/-- C4 counterexample: a repacked archive without module.prop, for which the
repack nevertheless succeeds (the claim says it must not). -/
theorem repack_missing_module_prop_cex :
    hasModuleProp (repackEntries zNoProp) = false ∧
    (repack_module envNoProp "http://x/d.zip" "r").1
      = some (rawBase ++ "r" ++ "/module.zip") := by
  decide

/-- C5: for an entry with repack enabled whose repack succeeds, the manifest's
zipUrl is the raw-file URL of src/<repo>/module.zip in the local output tree,
not the upstream asset URL. -/
theorem repack_zipUrl_is_local_raw (env : Env) (ri : RepoInfo) (s u r : String)
    (m : Manifest)
    (hu : urlString ri.url = some s) (hp : parseRepo s = some (u, r))
    (hrp : ri.repack = true)
    (hm : (get_latest_release env ri).1 = some m) :
    m.zipUrl = rawBase ++ r ++ "/module.zip" := by
  obtain ⟨s2, u2, r2, rd2, zip0, hu2, hp2, hr2, hsz2, hv, hvc, hcl, hz1, hz2⟩ :=
    get_some_inv env ri m hm
  have hs2e : s2 = s := Option.some.inj (hu2.symm.trans hu)
  rw [hs2e] at hp2
  have h2 := Option.some.inj (hp2.symm.trans hp)
  have hr2e : r2 = r := congrArg Prod.snd h2
  have hrm := hz2 hrp
  rcases repack_module_fst env zip0 r2 with hn | hsome
  · rw [hn] at hrm
    cases hrm
  · rw [hsome] at hrm
    rw [← hr2e]
    exact (Option.some.inj hrm).symm

/-- Witness for C5 at a concrete input. -/
theorem repack_zipUrl_is_local_raw_witness :
    mRepack.zipUrl = rawBase ++ "r" ++ "/module.zip" :=
  repack_zipUrl_is_local_raw envOk riRepack "https://github.com/u/r" "u" "r" mRepack
    (by decide) (by decide) rfl (by decide)

/-- C6: the run is one sequential pass in which every entry's effects are a
function of that entry alone (so one entry's lookup/repack/write failure
cannot affect any other entry), and an entry whose lookup fails contributes
no update.json write. The hypothesis restricts failures to those three kinds:
a null or non-string url raises before the lookup and aborts the loop. -/
theorem main_single_pass_isolated_failures (env : Env) (ris : List RepoInfo)
    (h : ∀ ri ∈ ris, (mainGetName ri.url).isSome = true) :
    mainRun env ris
      = ((ris.map (fun ri => (processEntry env ri).getD [])).flatten, true) ∧
    ∀ ri ∈ ris, (get_latest_release env ri).1 = none →
      ∀ e ∈ (processEntry env ri).getD [], isJsonWrite e = false := by
  refine ⟨mainRun_eq_join env ris h, ?_⟩
  intro ri hri hnone e he
  rw [processEntry] at he
  rcases hg : mainGetName ri.url with _ | uu
  · simp only [hg] at he
    simp at he
  · simp only [hg] at he
    rcases hgl : get_latest_release env ri with ⟨mi, effs⟩
    have h1 : (get_latest_release env ri).1 = mi := congrArg Prod.fst hgl
    rw [hnone] at h1
    subst h1
    simp only [hgl] at he
    exact (get_effs env ri e (by rw [hgl]; exact he)).1

/-- Witness for C6 at a concrete input: a failing entry followed by a
succeeding one; the run completes and equals the per-entry concatenation. -/
theorem main_single_pass_isolated_failures_witness :
    mainRun envOk risMixed
      = ((risMixed.map (fun ri => (processEntry envOk ri).getD [])).flatten, true) :=
  (main_single_pass_isolated_failures envOk risMixed (by decide)).1

/-- C7: within one entry, update.json (the only JSON write) and changelog.md
(the only text write) are each written at most once; every file write uses the
truncating mode "w"; and a successful mode-"w" write replaces the file's
content regardless of what was stored before. -/
theorem entry_writes_once_and_overwrite (env : Env) (ri : RepoInfo) (effs : List Effect)
    (h : processEntry env ri = some effs) :
    effs.countP isJsonWrite ≤ 1 ∧ effs.countP isTextWrite ≤ 1 ∧
    (∀ p c mo ok, Effect.fwrite p c mo ok ∈ effs → mo = Mode.w) ∧
    (∀ (fs : FS) (p : String) (c : FileContent),
      applyEffect fs (Effect.fwrite p c Mode.w true) p = some c) := by
  have hjson0 : (get_latest_release env ri).2.countP isJsonWrite = 0 :=
    List.countP_eq_zero.mpr (fun e he => by simp [(get_effs env ri e he).1])
  rw [processEntry] at h
  rcases hg : mainGetName ri.url with _ | uu
  · simp only [hg] at h
    cases h
  simp only [hg] at h
  rcases hgl : get_latest_release env ri with ⟨mi, effs2⟩
  have hsnd : (get_latest_release env ri).2 = effs2 := congrArg Prod.snd hgl
  rw [hgl] at h
  cases mi with
  | none =>
    simp only at h
    injection h with h
    subst h
    refine ⟨?_, ?_, ?_, ?_⟩
    · rw [← hsnd, hjson0]
      exact Nat.zero_le 1
    · rw [← hsnd]
      exact get_textCount env ri
    · intro p c mo ok hmem
      exact (get_effs env ri (Effect.fwrite p c mo ok) (hsnd ▸ hmem)).2 p c mo ok rfl
    · intro fs p c
      simp [applyEffect]
  | some m =>
    simp only at h
    injection h with h
    subst h
    have htext0 : effs2.countP isTextWrite ≤ 1 := hsnd ▸ get_textCount env ri
    have hjson2 : effs2.countP isJsonWrite = 0 := hsnd ▸ hjson0
    refine ⟨?_, ?_, ?_, ?_⟩
    · simp [List.countP_append, List.countP_cons, hjson2, isJsonWrite]
    · simpa [List.countP_append, List.countP_cons, isTextWrite] using htext0
    · intro p c mo ok hmem
      rw [List.mem_append] at hmem
      rcases hmem with hmem | hmem
      · exact (get_effs env ri (Effect.fwrite p c mo ok) (hsnd ▸ hmem)).2 p c mo ok rfl
      · simp only [List.mem_cons, List.not_mem_nil, or_false] at hmem
        rcases hmem with hmem | hmem
        · cases hmem
        · cases hmem
          rfl
    · intro fs p c
      simp [applyEffect]

/-- Witness for C7 at a concrete input. -/
theorem entry_writes_once_and_overwrite_witness :
    ((processEntry envOk riPlain).getD []).countP isJsonWrite ≤ 1 :=
  (entry_writes_once_and_overwrite envOk riPlain ((processEntry envOk riPlain).getD [])
    (by decide)).1

/-- C8: zip-asset selection picks the first asset whose name ends in ".zip"
and, when the keyword is non-empty, whose lowercased name contains the keyword
verbatim; a keyword containing an uppercase ASCII letter can never match; and
when no asset matches the lookup returns none. -/
theorem asset_selection_first_zip_keyword (kw : String) (assets : List Asset)
    (env : Env) (ri : RepoInfo) (s u r : String) (rd : ReleaseData)
    (hu : urlString ri.url = some s) (hp : parseRepo s = some (u, r))
    (hr : env.releases (apiUrl u r) = some rd) :
    (selectZip kw assets
       = (assets.find? (fun a => pyEndsWith a.name.data ".zip".data &&
           (decide (kw = "") || pySubstr kw.data (lowerData a.name)))).map
           Asset.browser_download_url) ∧
    ((kw.data.any fun c => decide (65 ≤ c.toNat) && decide (c.toNat ≤ 90)) = true →
      selectZip kw assets = none) ∧
    (selectZip ri.keyword rd.assets = none → (get_latest_release env ri).1 = none) := by
  refine ⟨?_, ?_, ?_⟩
  · by_cases hk : kw = ""
    · subst hk
      rw [selectZip, if_pos rfl]
      refine congrArg _ (find?_congrP assets _ _ ?_)
      intro a
      simp
    · rw [selectZip, if_neg hk]
      refine congrArg _ (find?_congrP assets _ _ ?_)
      intro a
      simp [hk]
  · intro hany
    obtain ⟨c, hcmem, hc⟩ := List.any_eq_true.mp hany
    rw [Bool.and_eq_true, decide_eq_true_eq, decide_eq_true_eq] at hc
    have hkne : kw ≠ "" := by
      intro hk
      subst hk
      exact List.not_mem_nil c hcmem
    have hfind : assets.find? (fun a =>
        pyEndsWith a.name.data ".zip".data && pySubstr kw.data (lowerData a.name)) = none := by
      apply List.find?_eq_none.mpr
      intro a ha hpa
      rw [Bool.and_eq_true] at hpa
      have hsub := hpa.2
      rw [pySubstr, decide_eq_true_eq] at hsub
      have hcl : c ∈ lowerData a.name := hsub.subset hcmem
      rw [lowerData] at hcl
      obtain ⟨d, _, rfl⟩ := List.mem_map.mp hcl
      exact toLower_not_upper d hc
    rw [selectZip, if_neg hkne, hfind]
    rfl
  · intro hnone
    simp [get_latest_release, hu, hp, afterParse, hr, afterRelease, hnone]

/-- Witness for C8 at a concrete input: the uppercase keyword "KW" matches no
asset, not even one literally named "A-KW.zip". -/
theorem asset_selection_first_zip_keyword_witness :
    selectZip "KW" [⟨"A-KW.zip", "u1"⟩] = none :=
  (asset_selection_first_zip_keyword "KW" [⟨"A-KW.zip", "u1"⟩] envOk riPlain
    "https://github.com/u/r" "u" "r" rdOk (by decide) (by decide) rfl).2.1 (by decide)

/-- C9: a changelog write failure does not change the lookup's result: the
very same manifest is returned for every write-success behaviour, and its
changelog field is the raw-file URL of the (possibly unwritten) changelog. -/
theorem changelog_failure_keeps_manifest (env : Env) (ri : RepoInfo) (m : Manifest)
    (hm : (get_latest_release env ri).1 = some m) :
    (∀ f, (get_latest_release { env with changelogWriteOk := f } ri).1 = some m) ∧
    ∃ s, urlString ri.url = some s ∧
      m.changelog = rawBase ++ lastPart s ++ "/changelog.md" := by
  refine ⟨fun f => ?_, ?_⟩
  · rw [get_fst_env_changelog env f ri, hm]
  · obtain ⟨s, u, r, rd, zip0, hu, hp, hr, hsz, hv, hvc, hcl, hz1, hz2⟩ :=
      get_some_inv env ri m hm
    exact ⟨s, hu, hcl⟩

/-- Witness for C9 at a concrete input: with every changelog write failing,
the same manifest is still returned. -/
theorem changelog_failure_keeps_manifest_witness :
    (get_latest_release { envOk with changelogWriteOk := fun _ => false } riPlain).1
      = some mPlain :=
  (changelog_failure_keeps_manifest envOk riPlain mPlain (by decide)).1 (fun _ => false)

/-- C10: the lookup succeeds only when the configured url is a non-empty
string that, after stripping trailing slashes, splits on '/' into exactly five
parts; for a missing, null, non-string, or ill-shaped url it returns None
having performed no network request and no file write. -/
theorem lookup_requires_wellformed_url (env : Env) (ri : RepoInfo) :
    ((∀ s, urlString ri.url = some s → parseRepo s = none) →
      get_latest_release env ri = (none, [])) ∧
    (∀ m, (get_latest_release env ri).1 = some m →
      ∃ s u r, urlString ri.url = some s ∧ parseRepo s = some (u, r)) := by
  constructor
  · intro h
    rcases hu : urlString ri.url with _ | s
    · simp [get_latest_release, hu]
    · simp [get_latest_release, hu, h s hu]
  · intro m hm
    obtain ⟨s, u, r, rd, zip0, hu, hp, hr, hsz, hv, hvc, hcl, hz1, hz2⟩ :=
      get_some_inv env ri m hm
    exact ⟨s, u, r, hu, hp⟩

/-- Witness for C10 at a concrete input: a non-string url value yields None
and an empty effect list. -/
theorem lookup_requires_wellformed_url_witness :
    get_latest_release envOk riBadUrl = (none, []) :=
  (lookup_requires_wellformed_url envOk riBadUrl).1
    (fun s hs => by simp [riBadUrl, urlString] at hs)

end UpdatePy
